import Mathlib

/-!
Verification of the disttop program (disttop.py): a shallow embedding of its
string handling, process parsing, per-host fetch classification, aggregation,
sorting and terminal rendering, together with theorems settling the stated
properties of its specification.

Python strings are modelled as Lean `String` (lists of characters); the
whitespace set is the ASCII subset relevant to the output of `top`.  Library
behaviour that the program relies on (such as `str.split`, `str.join`,
`list.sort` with a key and `reverse=True`, `curses.addnstr` clipping and
`multiprocessing.Pool`) is modelled from the documented CPython semantics.
-/

/-! ## Python string primitives -/

/-- The whitespace characters recognised by the Python string methods used in
disttop.py (`split`, `strip`, `lstrip`), restricted to the ASCII range that
can occur in the output of `top`. -/
def pyIsSpace (c : Char) : Bool :=
  c = ' ' || c = '\t' || c = '\n' || c = '\r' || c = '\x0b' || c = '\x0c'

/-- Fuel-indexed worker for `pySplitL`; the fuel is only there to make the
recursion structural, `pySplitL` always supplies enough of it. -/
def splitGo : Nat → List Char → List (List Char)
  | _, [] => []
  | 0, _ :: _ => []
  | fuel + 1, c :: cs =>
    if pyIsSpace c then splitGo fuel cs
    else (c :: cs.takeWhile (fun d => !pyIsSpace d)) ::
      splitGo fuel (cs.dropWhile (fun d => !pyIsSpace d))

/-- Models Python `str.split()` with no separator argument, on character
lists: maximal runs of non-whitespace characters, with no empty fields. -/
def pySplitL (cs : List Char) : List (List Char) :=
  splitGo cs.length cs

/-- Models Python `str.split()` with no separator argument. -/
def pySplit (s : String) : List String :=
  (pySplitL s.data).map String.mk

/-- Models Python `str.lstrip()` with no argument (drop leading whitespace). -/
def pyLstrip (s : String) : String :=
  String.mk (s.data.dropWhile pyIsSpace)

/-- Models Python `str.strip()` with no argument (drop leading and trailing
whitespace). -/
def pyStrip (s : String) : String :=
  String.mk (((s.data.dropWhile pyIsSpace).reverse.dropWhile pyIsSpace).reverse)

/-- Models Python `sep.join(parts)` on character lists. -/
def pyJoinL (sep : List Char) : List (List Char) → List Char
  | [] => []
  | [t] => t
  | t :: t2 :: ts => t ++ sep ++ pyJoinL sep (t2 :: ts)

/-- Models Python `sep.join(parts)`. -/
def pyJoin (sep : String) (parts : List String) : String :=
  String.mk (pyJoinL sep.data (parts.map String.data))

/-- Worker for `pySplitlines`: accumulates the current line (reversed). -/
def splitlinesAux (acc : List Char) : List Char → List (List Char)
  | [] => if acc.isEmpty then [] else [acc.reverse]
  | '\r' :: '\n' :: cs => acc.reverse :: splitlinesAux [] cs
  | '\r' :: cs => acc.reverse :: splitlinesAux [] cs
  | '\n' :: cs => acc.reverse :: splitlinesAux [] cs
  | c :: cs => splitlinesAux (c :: acc) cs

/-- Models Python `str.splitlines()`, restricted to the line boundaries that
occur in the output of a remote command: `\n`, `\r\n` and `\r`. -/
def pySplitlines (s : String) : List String :=
  (splitlinesAux [] s.data).map String.mk

/-- Models `str.isnumeric()` applied to a one-character string, as used on
the first character of a stripped line.  On the ASCII text produced by `top`
this coincides with being a decimal digit; the additional Unicode numeric
characters accepted by CPython are outside the remote output contract
(section 6 of the specification: process lines begin with a numeric PID). -/
def pyIsnumeric (c : Char) : Bool :=
  c.isDigit

/-- The numeric value of a list of decimal digit characters. -/
def digitsToNat (l : List Char) : Nat :=
  l.foldl (fun n c => 10 * n + (c.toNat - 48)) 0

/-- Worker for `pyFloatQ` on an unsigned decimal numeral: digits with an
optional fractional part, at least one digit in total. -/
def pyFloatCore (cs : List Char) : Option ℚ :=
  let intPart := cs.takeWhile Char.isDigit
  match cs.dropWhile Char.isDigit with
  | [] => if intPart.isEmpty then none else some (digitsToNat intPart : ℚ)
  | '.' :: frac =>
    if frac.all Char.isDigit && !(intPart.isEmpty && frac.isEmpty) then
      some ((digitsToNat intPart : ℚ) + (digitsToNat frac : ℚ) / (10 ^ frac.length))
    else none
  | _ => none

/-- Models Python `float(s)` on the plain decimal numerals produced by `top`
for its cpu column (optional sign, digits, optional fractional part), as the
exact rational value: decimal-to-double conversion is monotone and the
one-decimal-digit values emitted by `top` are distinguished exactly by their
rational values, so order and equality of the keys agree with the CPython
floats.  Exponents, infinities, nan, underscores and surrounding whitespace
are outside the remote output contract and modelled as a parse failure
(CPython raises ValueError, which the specification calls a fatal contract
violation). -/
def pyFloatQ (s : String) : Option ℚ :=
  match s.data with
  | '-' :: cs => (pyFloatCore cs).map (fun q => -q)
  | '+' :: cs => pyFloatCore cs
  | cs => pyFloatCore cs

/-- Models Python list slicing `l[:n]` for an arbitrary integer bound (a
negative bound counts from the end of the list). -/
def pySliceTo (l : List α) (n : Int) : List α :=
  if 0 ≤ n then l.take n.toNat else l.take (l.length - (-n).toNat)

/-! ## SSH handling (calltop, lines 56 to 74) -/

/-- The outcome of the remote `ssh ... top -bsn 1` subprocess on one host:
exit status and the decoded standard output and standard error texts.  An
empty string models empty captured bytes (Python falsiness of `bytes`). -/
structure CmdResult where
  returncode : Int
  out : String
  err : String
deriving Repr, DecidableEq

/-- The exception raised for ssh errors (class SSH_Error, lines 28 to 38):
its constructor strips the stderr text. -/
structure SSH_Error where
  error : String
  host : String
deriving Repr, DecidableEq

/-- Constructor of `SSH_Error` (lines 36 to 38): `self.error = error.strip()`. -/
def mkSSHError (error host : String) : SSH_Error :=
  ⟨pyStrip error, host⟩

/-- Models `calltop` (lines 56 to 74) given the outcome of the subprocess:
a non-zero exit status raises `SSH_Error(err.decode() if err else
offlineReason, host)`; a zero exit status returns the decoded stdout. -/
def calltop (host : String) (r : CmdResult) : Except SSH_Error String :=
  if r.returncode ≠ 0 then
    .error (mkSSHError (if !r.err.isEmpty then r.err else "Unkown Error") host)
  else
    .ok r.out

/-! ## Top handling (Process and getprocs, lines 80 to 123) -/

/-- Class Process (lines 80 to 93): one parsed line of `top` output plus the
host it came from.  Field names follow the source attributes. -/
structure Process where
  host : String
  pid : String
  user : String
  pr : String
  nice : String
  virt : String
  res : String
  shr : String
  s : String
  cpu : String
  mem : String
  time : String
  cmd : String
deriving Repr, DecidableEq

/-- The fatal parse error of `Process.__init__` (lines 89 to 91): the
message printed to stderr carries the host and the raw line, and the program
exits with status 1 (`sys.exit(1)`). -/
structure ParseFatal where
  host : String
  data : String
deriving Repr, DecidableEq

/-- The record built by the unpacking assignment of line 92 from a field
list of length at least 12: eleven named fields, then
`self.cmd = " ".join(fields[11:])` (line 93). -/
def mkProcess (host : String) (fields : List String) : Process :=
  { host := host
    pid := fields.getD 0 ""
    user := fields.getD 1 ""
    pr := fields.getD 2 ""
    nice := fields.getD 3 ""
    virt := fields.getD 4 ""
    res := fields.getD 5 ""
    shr := fields.getD 6 ""
    s := fields.getD 7 ""
    cpu := fields.getD 8 ""
    mem := fields.getD 9 ""
    time := fields.getD 10 ""
    cmd := pyJoin " " (fields.drop 11) }

/-- Models `Process.__init__` (lines 86 to 93): split the line on
whitespace; fewer than 12 fields is the fatal error path (stderr report and
`sys.exit(1)`, modelled as `Except.error`); otherwise the record is built
from the fields. -/
def processInit (host data : String) : Except ParseFatal Process :=
  if (pySplit data).length < 12 then .error ⟨host, data⟩
  else .ok (mkProcess host (pySplit data))

/-- The per-host result dictionary returned by `getprocs` (lines 104 and
123): either a list of `Process` or the formatted broken-host string. -/
inductive HostResult where
  | procs (ps : List Process)
  | broken (msg : String)
deriving Repr, DecidableEq

/-- The broken-host entry built at line 104:
`"{}: {}".format(host, s.error)` with the error quoted. -/
def formatBroken (host error : String) : String :=
  host ++ ": " ++ String.mk [Char.ofNat 39] ++ error ++ String.mk [Char.ofNat 39]

/-- The line loop of `getprocs` (lines 107 to 120): left-strip each line,
skip empty lines, skip lines whose first character is not numeric, parse
every remaining line into a `Process` in order.  A fatal parse error inside
`Process.__init__` aborts the whole computation. -/
def parseLines (host : String) : List String → Except ParseFatal (List Process)
  | [] => .ok []
  | line :: rest =>
    let sl := pyLstrip line
    if sl.isEmpty then parseLines host rest
    else if !pyIsnumeric (sl.data.headD ' ') then parseLines host rest
    else (processInit host sl).bind fun p => (parseLines host rest).map (p :: ·)

/-- Models `getprocs` (lines 96 to 123) given the outcome of the remote
subprocess: an `SSH_Error` from `calltop` becomes a broken-host result, a
successful call has its stdout parsed line by line. -/
def getprocs (host : String) (r : CmdResult) : Except ParseFatal HostResult :=
  match calltop host r with
  | .error e => .ok (.broken (formatBroken host e.error))
  | .ok out => (parseLines host (pySplitlines out)).map .procs

/-! ## Aggregation (main loop, lines 201 to 213) -/

/-- The sort key of line 213: `float(p.cpu)` (see `pyFloatQ`). -/
def cpuKey (p : Process) : ℚ :=
  (pyFloatQ p.cpu).getD 0

/-- Insertion step of a stable descending sort: the new element goes after
every earlier element whose key is strictly larger, and also after earlier
elements with an equal key. -/
def insertDesc (key : α → ℚ) (x : α) : List α → List α
  | [] => [x]
  | b :: bs => if key x < key b then b :: insertDesc key x bs else x :: b :: bs

/-- Stable descending insertion sort by a rational key.  A stable sort of a
given list by a given key is unique, so this is extensionally the CPython
`list.sort(key=..., reverse=True)` (Timsort is stable, and `reverse=True`
keeps equal-key elements in input order). -/
def sortDesc (key : α → ℚ) : List α → List α
  | [] => []
  | x :: xs => insertDesc key x (sortDesc key xs)

/-- Models line 213, `procs.sort(key=lambda p: float(p.cpu), reverse=True)`:
CPython materialises every key before reordering, so a cpu field that does
not parse as a float raises ValueError (a fatal contract violation per the
specification) before the list is changed; otherwise the list is sorted
stably by descending key. -/
def sortProcs (procs : List Process) : Except String (List Process) :=
  if procs.all (fun p => (pyFloatQ p.cpu).isSome) then
    .ok (sortDesc cpuKey procs)
  else
    .error "could not convert string to float"

/-- The per-cycle snapshot built by the main loop: the merged sorted record
list and the broken-host strings, in completion order. -/
structure CycleSnapshot where
  records : List Process
  failedHosts : List String
deriving Repr, DecidableEq

/-- Models lines 201 to 213 of the main loop: partition the results into
good process lists and broken-host strings (order preserved), flatten the
good ones, and sort by cpu descending. -/
def mergeCycle (results : List HostResult) : Except String CycleSnapshot :=
  let good := results.filterMap fun r =>
    match r with | .procs ps => some ps | .broken _ => none
  let brokens := results.filterMap fun r =>
    match r with | .broken m => some m | .procs _ => none
  (sortProcs good.flatten).map fun sorted => ⟨sorted, brokens⟩

/-! ## Printing (nstr and print_procs, lines 129 to 164) -/

/-- Column alignment, `<` or `>` in the format strings of line 141. -/
inductive Align where
  | left
  | right
deriving Repr, DecidableEq

/-- The fixed column list of line 141: attribute name, accessor and
alignment side. -/
def fieldsSpec : List (String × (Process → String) × Align) :=
  [("host", Process.host, .left), ("pid", Process.pid, .right),
   ("user", Process.user, .left), ("pr", Process.pr, .right),
   ("nice", Process.nice, .right), ("virt", Process.virt, .right),
   ("res", Process.res, .right), ("shr", Process.shr, .right),
   ("s", Process.s, .right), ("cpu", Process.cpu, .right),
   ("mem", Process.mem, .right), ("time", Process.time, .right),
   ("cmd", Process.cmd, .left)]

/-- The column width computed at line 147: the maximum of the header label
length and of the length of the value of every process in the list. -/
def colWidth (procs : List Process) (name : String) (get : Process → String) : Nat :=
  (procs.map fun p => (get p).length).foldl max name.length

/-- Models the format specifier `"{val:{s}{w}}"`: pad with spaces to the
given width on the declared side; a value at least as wide is unchanged. -/
def padTo (a : Align) (w : Nat) (v : String) : String :=
  match a with
  | .left => v ++ String.mk (List.replicate (w - v.length) ' ')
  | .right => String.mk (List.replicate (w - v.length) ' ') ++ v

/-- The header text of line 154: padded labels joined with a bar. -/
def headerText (procs : List Process) : String :=
  pyJoin " | " (fieldsSpec.map fun c => padTo c.2.2 (colWidth procs c.1 c.2.1) c.1)

/-- The data row text of line 160: padded values joined with three spaces,
using the widths computed from the whole process list. -/
def rowText (procs : List Process) (p : Process) : String :=
  pyJoin "   " (fieldsSpec.map fun c => padTo c.2.2 (colWidth procs c.1 c.2.1) (c.2.1 p))

/-- Clipping of `window.addnstr(y, x, text, n)`: at most `n` characters of
the text are written. -/
def clipTo (n : Nat) (s : String) : String :=
  String.mk (s.data.take n)

/-- Models `print_procs` (lines 138 to 164) on a curses screen of the given
height and width: the list of (row, written text) pairs produced through
`nstr`, in drawing order.  `x = width - 1` is the clipping bound of line
151; data rows are the slice `procs[:height - 3]` of line 159 drawn from row
2; the broken-hosts line of line 164 is always drawn at the last row. -/
def print_procs (height width : Nat) (procs : List Process) (brokens : List String) :
    List (Nat × String) :=
  let x := width - 1
  [(0, clipTo x (headerText procs)),
   (1, clipTo x (String.mk (List.replicate x '-')))]
  ++ ((pySliceTo procs ((height : Int) - 3)).enum.map fun ip =>
        (ip.1 + 2, clipTo x (rowText procs ip.2)))
  ++ [(height - 1, clipTo x ("Broken Hosts: " ++ pyJoin ", " brokens))]

/-! ## Startup (lines 169 to 229) -/

/-- Models the library constructor `multiprocessing.Pool(processes)`: CPython
raises `ValueError("Number of processes must be at least 1")` when the
process count is smaller than 1, and otherwise yields a pool of that many
workers (modelled by its size). -/
def multiprocessingPool (processes : Nat) : Except String Nat :=
  if processes < 1 then .error "Number of processes must be at least 1"
  else .ok processes

/-- Line 184 of disttop.py: at startup, before the first cycle, the worker
pool is created with one worker per command-line host,
`pool = multiprocessing.Pool(len(options.hosts))`. -/
def startupPool (hosts : List String) : Except String Nat :=
  multiprocessingPool hosts.length

/-! ## Specification-side definitions, used only to compare against the
source behaviour -/

/-- One Python `str.split()` field-skipping step: drop leading whitespace,
then drop one maximal run of non-whitespace characters. -/
def dropField (cs : List Char) : List Char :=
  (cs.dropWhile pyIsSpace).dropWhile (fun d => !pyIsSpace d)

/-- Worker for `specTrailingText`: skip the given number of fields, then
the whitespace before the next one. -/
def specTrailingTextAux : Nat → List Char → List Char
  | 0, cs => cs.dropWhile pyIsSpace
  | n + 1, cs => specTrailingTextAux n (dropField cs)

/-- Formalises the phrase of the specification: the original trailing text
of a line, everything from field 12 onward — the suffix of the line starting
at the first character of its twelfth whitespace-separated field (empty when
there is no twelfth field). -/
def specTrailingText (s : String) : String :=
  String.mk (specTrailingTextAux 11 s.data)

/-! ## Concrete inputs used by the instantiated theorems -/

/-- The keep condition of the line loop (lines 111 and 116), on the already
left-stripped line: non-empty and first character numeric. -/
def keepLine (sl : String) : Bool :=
  !sl.isEmpty && pyIsnumeric (sl.data.headD ' ')

/-- A concrete record of hostA with cpu 10, as in the specification
example. -/
def recA : Process :=
  ⟨"hostA", "101", "alice", "20", "0", "10000", "2000", "100", "S",
    "10", "0.5", "0:01", "sleep 60"⟩

/-- A concrete record of hostB with cpu 90, as in the specification
example. -/
def recB : Process :=
  ⟨"hostB", "202", "bob", "20", "0", "20000", "3000", "200", "R",
    "90", "1.5", "9:59", "cc main.c"⟩

/-- Three concrete records used to instantiate the rendering claim on a
viewport of height 5, where only `5 - 3 = 2` data rows fit. -/
def threeProcs : List Process :=
  [⟨"h1", "1", "u", "20", "0", "9", "9", "9", "S", "1.5", "0.1", "0:01", "a"⟩,
   ⟨"h2", "2", "u", "20", "0", "9", "9", "9", "S", "2.0", "0.1", "0:02", "b"⟩,
   ⟨"h3", "3", "u", "20", "0", "9", "9", "9", "S", "0.5", "0.1", "0:03", "c"⟩]

/-! ## Evaluation checks of the embedding -/

example : pySplit " 12  ab c " = ["12", "ab", "c"] := by decide
example : pySplitlines "a b\n\nc\r\nd" = ["a b", "", "c", "d"] := by decide
example : pyStrip " x y\n" = "x y" := by decide
example : pyFloatQ "12.5" = some (25 / 2 : ℚ) := by with_unfolding_all decide
example : pyFloatQ "-3" = some (-3 : ℚ) := by with_unfolding_all decide
example : pyFloatQ "x" = none := by with_unfolding_all decide
example : pyJoin " " ["a", "b"] = "a b" := by decide
example : specTrailingText "1 root 20 0 0 0 0 S 0.0 0.0 0:00 a  b" = "a  b" := by decide

/-! ## Unfolding lemmas for the split -/

theorem splitGo_fuel (f1 : Nat) : ∀ (f2 : Nat) (cs : List Char),
    cs.length ≤ f1 → cs.length ≤ f2 → splitGo f1 cs = splitGo f2 cs := by
  induction f1 with
  | zero =>
    intro f2 cs h1 _
    have : cs = [] := List.length_eq_zero.mp (Nat.le_zero.mp h1)
    subst this
    cases f2 <;> rfl
  | succ f ih =>
    intro f2 cs h1 h2
    cases cs with
    | nil => cases f2 <;> rfl
    | cons c cs =>
      cases f2 with
      | zero => exact absurd h2 (by simp)
      | succ f2 =>
        simp only [List.length_cons, Nat.succ_le_succ_iff] at h1 h2
        simp only [splitGo]
        by_cases hc : pyIsSpace c
        · simp only [hc, if_true]
          exact ih f2 cs h1 h2
        · have hd : (cs.dropWhile (fun d => !pyIsSpace d)).length ≤ cs.length :=
            (List.dropWhile_sublist _).length_le
          rw [ih f2 _ (le_trans hd h1) (le_trans hd h2)]
          simp [hc]

theorem pySplitL_nil : pySplitL [] = [] := rfl

/-- Unfolding equation for `pySplitL`: a leading whitespace character is
skipped. -/
theorem pySplitL_cons_space {c : Char} (cs : List Char) (hc : pyIsSpace c = true) :
    pySplitL (c :: cs) = pySplitL cs := by
  simp only [pySplitL, List.length_cons, splitGo, hc, if_true]

/-- Unfolding equation for `pySplitL`: a leading non-whitespace character
starts a field that extends while characters stay non-whitespace. -/
theorem pySplitL_cons_word {c : Char} (cs : List Char) (hc : pyIsSpace c = false) :
    pySplitL (c :: cs) =
      (c :: cs.takeWhile (fun d => !pyIsSpace d)) ::
        pySplitL (cs.dropWhile (fun d => !pyIsSpace d)) := by
  simp only [pySplitL, List.length_cons, splitGo]
  rw [splitGo_fuel _ _ _ (List.dropWhile_sublist _).length_le (Nat.le_refl _)]
  simp [hc]

/-! ## Field structure of the split -/

theorem pySplitL_dropWhile_space (cs : List Char) :
    pySplitL (cs.dropWhile pyIsSpace) = pySplitL cs := by
  induction cs with
  | nil => rfl
  | cons c cs ih =>
    by_cases hc : pyIsSpace c
    · rw [List.dropWhile_cons_of_pos hc, ih, pySplitL_cons_space cs hc]
    · rw [List.dropWhile_cons_of_neg hc]

/-- A whitespace-free non-empty field followed by a whitespace character is
split off as the first field. -/
theorem pySplitL_word_append {w : List Char} {x : Char} (r : List Char)
    (hw : ∀ c ∈ w, pyIsSpace c = false) (hne : w ≠ []) (hx : pyIsSpace x = true) :
    pySplitL (w ++ x :: r) = w :: pySplitL r := by
  obtain ⟨c, w, rfl⟩ : ∃ c t, w = c :: t := by
    cases w with
    | nil => exact absurd rfl hne
    | cons c t => exact ⟨c, t, rfl⟩
  have hc : pyIsSpace c = false := hw c (List.mem_cons_self c w)
  have hw : ∀ d ∈ w, (fun d => !pyIsSpace d) d = true := by
    intro d hd
    simp [hw d (List.mem_cons_of_mem c hd)]
  rw [List.cons_append, pySplitL_cons_word _ hc,
    List.takeWhile_append_of_pos hw, List.dropWhile_append_of_pos hw,
    List.takeWhile_cons_of_neg (by simp [hx]), List.dropWhile_cons_of_neg (by simp [hx]),
    List.append_nil, pySplitL_cons_space r hx]

/-- A whitespace-free non-empty string splits into the single field that is
itself. -/
theorem pySplitL_word {w : List Char}
    (hw : ∀ c ∈ w, pyIsSpace c = false) (hne : w ≠ []) :
    pySplitL w = [w] := by
  obtain ⟨c, w, rfl⟩ : ∃ c t, w = c :: t := by
    cases w with
    | nil => exact absurd rfl hne
    | cons c t => exact ⟨c, t, rfl⟩
  have hc : pyIsSpace c = false := hw c (List.mem_cons_self c w)
  have hw : ∀ d ∈ w, (fun d => !pyIsSpace d) d = true := by
    intro d hd
    simp [hw d (List.mem_cons_of_mem c hd)]
  rw [pySplitL_cons_word _ hc, List.takeWhile_eq_self_iff.mpr hw,
    List.dropWhile_eq_nil_iff.mpr hw, pySplitL_nil]

/-- Every field produced by the split is non-empty and free of whitespace. -/
theorem pySplitL_fields : ∀ (n : Nat) (cs : List Char), cs.length ≤ n →
    ∀ t ∈ pySplitL cs, t ≠ [] ∧ ∀ c ∈ t, pyIsSpace c = false := by
  intro n
  induction n with
  | zero =>
    intro cs h
    have : cs = [] := List.length_eq_zero.mp (Nat.le_zero.mp h)
    subst this
    simp [pySplitL_nil]
  | succ n ih =>
    intro cs h t ht
    cases cs with
    | nil => simp [pySplitL_nil] at ht
    | cons c cs =>
      simp only [List.length_cons, Nat.succ_le_succ_iff] at h
      by_cases hc : pyIsSpace c
      · rw [pySplitL_cons_space cs hc] at ht
        exact ih cs h t ht
      · rw [pySplitL_cons_word cs (Bool.of_not_eq_true hc)] at ht
        rcases List.mem_cons.mp ht with h1 | h2
        · subst h1
          refine ⟨by simp, ?_⟩
          intro d hd
          rcases List.mem_cons.mp hd with h1 | h2
          · subst h1
            exact Bool.of_not_eq_true hc
          · have := List.mem_takeWhile_imp h2
            simpa using this
        · refine ih _ (le_trans (List.dropWhile_sublist _).length_le h) t h2

/-- Fields of a split string: specialisation of `pySplitL_fields`. -/
theorem pySplitL_fields_of_mem {cs : List Char} {t : List Char}
    (ht : t ∈ pySplitL cs) : t ≠ [] ∧ ∀ c ∈ t, pyIsSpace c = false :=
  pySplitL_fields cs.length cs (Nat.le_refl _) t ht

/-- Splitting the single-space join of non-empty whitespace-free fields
recovers exactly those fields. -/
theorem pySplitL_joinL : ∀ (ts : List (List Char)),
    (∀ t ∈ ts, t ≠ [] ∧ ∀ c ∈ t, pyIsSpace c = false) →
    pySplitL (pyJoinL [' '] ts) = ts := by
  intro ts
  induction ts with
  | nil => intro _; rfl
  | cons t ts ih =>
    intro hts
    cases ts with
    | nil =>
      have h := hts t (List.mem_cons_self t [])
      exact pySplitL_word h.2 h.1
    | cons t2 ts2 =>
      have ht := hts t (List.mem_cons_self t _)
      have hrest : ∀ u ∈ t2 :: ts2, u ≠ [] ∧ ∀ c ∈ u, pyIsSpace c = false := by
        intro u hu
        exact hts u (List.mem_cons_of_mem t hu)
      show pySplitL (t ++ [' '] ++ pyJoinL [' '] (t2 :: ts2)) = t :: t2 :: ts2
      rw [List.append_assoc, List.singleton_append,
        pySplitL_word_append _ ht.2 ht.1 (by decide), ih hrest]

/-! ## The stable descending sort -/

theorem insertDesc_perm (key : α → ℚ) (x : α) :
    ∀ l : List α, (insertDesc key x l).Perm (x :: l) := by
  intro l
  induction l with
  | nil => rfl
  | cons b bs ih =>
    by_cases h : key x < key b
    · simp only [insertDesc, h, if_true]
      exact (ih.cons b).trans (List.Perm.swap x b bs)
    · simp only [insertDesc, h, if_false]
      exact List.Perm.refl _

theorem sortDesc_perm (key : α → ℚ) :
    ∀ l : List α, (sortDesc key l).Perm l := by
  intro l
  induction l with
  | nil => rfl
  | cons x xs ih =>
    exact (insertDesc_perm key x (sortDesc key xs)).trans (ih.cons x)

theorem mem_insertDesc {key : α → ℚ} {x y : α} {l : List α} :
    y ∈ insertDesc key x l ↔ y = x ∨ y ∈ l := by
  rw [(insertDesc_perm key x l).mem_iff, List.mem_cons]

theorem pairwise_insertDesc {key : α → ℚ} (x : α) :
    ∀ l : List α, l.Pairwise (fun a b => key b ≤ key a) →
      (insertDesc key x l).Pairwise (fun a b => key b ≤ key a) := by
  intro l
  induction l with
  | nil => simp [insertDesc]
  | cons b bs ih =>
    intro h
    rcases List.pairwise_cons.mp h with ⟨hb, hbs⟩
    by_cases hx : key x < key b
    · simp only [insertDesc, hx, if_true]
      refine List.pairwise_cons.mpr ⟨?_, ih hbs⟩
      intro y hy
      rcases mem_insertDesc.mp hy with h1 | h2
      · subst h1
        exact le_of_lt hx
      · exact hb y h2
    · simp only [insertDesc, hx, if_false]
      refine List.pairwise_cons.mpr ⟨?_, h⟩
      intro y hy
      rcases List.mem_cons.mp hy with h1 | h2
      · subst h1
        exact not_lt.mp hx
      · exact le_trans (hb y h2) (not_lt.mp hx)

theorem sortDesc_pairwise (key : α → ℚ) :
    ∀ l : List α, (sortDesc key l).Pairwise (fun a b => key b ≤ key a) := by
  intro l
  induction l with
  | nil => simp [sortDesc]
  | cons x xs ih => exact pairwise_insertDesc x _ ih

theorem filter_insertDesc (key : α → ℚ) (x : α) (q : ℚ) :
    ∀ l : List α,
      (insertDesc key x l).filter (fun a => key a = q) =
        if key x = q then x :: l.filter (fun a => key a = q)
        else l.filter (fun a => key a = q) := by
  intro l
  induction l with
  | nil =>
    by_cases hq : key x = q <;> simp [insertDesc, List.filter, hq]
  | cons b bs ih =>
    by_cases hx : key x < key b
    · simp only [insertDesc, hx, if_true]
      by_cases hq : key x = q
      · have hbq : ¬ (key b = q) := by
          intro hb
          exact absurd (hb.trans hq.symm) (ne_of_gt hx)
        simp only [hq, if_true] at ih ⊢
        simp [List.filter_cons, hbq, ih]
      · simp only [hq, if_false] at ih ⊢
        simp [List.filter_cons, ih]
    · simp only [insertDesc, hx, if_false]
      by_cases hq : key x = q
      · simp [List.filter_cons, hq]
      · simp [List.filter_cons, hq]

theorem sortDesc_filter (key : α → ℚ) (q : ℚ) :
    ∀ l : List α,
      (sortDesc key l).filter (fun a => key a = q) = l.filter (fun a => key a = q) := by
  intro l
  induction l with
  | nil => rfl
  | cons x xs ih =>
    show (insertDesc key x (sortDesc key xs)).filter (fun a => key a = q) = _
    rw [filter_insertDesc key x q (sortDesc key xs), ih]
    by_cases hq : key x = q
    · simp [List.filter_cons, hq]
    · simp [List.filter_cons, hq]

/-! ## Bridges between strings and character lists -/

theorem data_of_mk (l : List Char) : (String.mk l).data = l := rfl

theorem map_data_of_mk (ts : List (List Char)) :
    (ts.map String.mk).map String.data = ts := by
  induction ts with
  | nil => rfl
  | cons t ts ih =>
    simp only [List.map_cons]
    rw [ih]

theorem pyJoin_map_mk (sep : String) (ts : List (List Char)) :
    pyJoin sep (ts.map String.mk) = String.mk (pyJoinL sep.data ts) := by
  rw [pyJoin, map_data_of_mk]

theorem pySplit_mk (l : List Char) :
    pySplit (String.mk l) = (pySplitL l).map String.mk := rfl

/-! ## Skipping fields: the trailing text -/

theorem pySplitL_dropField (cs : List Char) :
    pySplitL (dropField cs) = (pySplitL cs).tail := by
  induction cs with
  | nil => rfl
  | cons c cs ih =>
    by_cases hc : pyIsSpace c
    · rw [dropField, List.dropWhile_cons_of_pos hc, pySplitL_cons_space cs hc, ← ih, dropField]
    · rw [dropField, List.dropWhile_cons_of_neg hc,
        List.dropWhile_cons_of_pos (by simp [Bool.of_not_eq_true hc]),
        pySplitL_cons_word cs (Bool.of_not_eq_true hc), List.tail_cons]

theorem pySplitL_trailingAux : ∀ (n : Nat) (cs : List Char),
    pySplitL (specTrailingTextAux n cs) = (pySplitL cs).drop n := by
  intro n
  induction n with
  | zero =>
    intro cs
    rw [specTrailingTextAux, pySplitL_dropWhile_space, List.drop_zero]
  | succ n ih =>
    intro cs
    show pySplitL (specTrailingTextAux n (dropField cs)) = _
    rw [ih (dropField cs), pySplitL_dropField, ← List.drop_one, List.drop_drop,
      Nat.add_comm]

theorem pySplit_specTrailingText (s : String) :
    pySplit (specTrailingText s) = ((pySplitL s.data).drop 11).map String.mk := by
  rw [specTrailingText, pySplit_mk, pySplitL_trailingAux]

/-! ## The command field of a parsed record -/

theorem processInit_ok {host data : String} {p : Process}
    (h : processInit host data = .ok p) :
    p = mkProcess host (pySplit data) ∧ 12 ≤ (pySplit data).length := by
  by_cases hl : (pySplit data).length < 12
  · simp [processInit, hl] at h
  · simp only [processInit, hl, if_false, Except.ok.injEq] at h
    exact ⟨h.symm, Nat.not_lt.mp hl⟩

theorem mkProcess_cmd (host : String) (fields : List String) :
    (mkProcess host fields).cmd = pyJoin " " (fields.drop 11) := rfl

theorem space_data : (" " : String).data = [' '] := rfl

/-- The command field of a record parsed from a line is the single-space
join of the character-level fields from the twelfth onward. -/
theorem processInit_cmd {host data : String} {p : Process}
    (h : processInit host data = .ok p) :
    p.cmd = String.mk (pyJoinL [' '] ((pySplitL data.data).drop 11)) := by
  rcases processInit_ok h with ⟨rfl, _⟩
  rw [mkProcess_cmd, pySplit, ← List.map_drop, pyJoin_map_mk, space_data]

/-! ## Claim C1 -/

/-- C1: the claim states that invoking the program with zero hosts is valid,
with no failure or error at startup or during any cycle.  The code violates
this at startup: line 184 evaluates `multiprocessing.Pool(len(options.hosts))`,
and the CPython pool constructor raises ValueError for a zero process count,
before the first cycle ever runs.  (The cycle itself would indeed be
harmless: `mergeCycle [] = .ok ⟨[], []⟩`.)  This theorem evaluates the
startup path of the code at the failing input, the empty host list. -/
theorem C1_zero_hosts_startup :
    startupPool [] = .error "Number of processes must be at least 1" ∧
      mergeCycle [] = .ok ⟨[], []⟩ := by
  constructor
  · rfl
  · with_unfolding_all rfl

/-! ## Claim C3 -/

/-- C3: an input line with fewer than 12 whitespace-separated fields is a
fatal parse error of record construction: the error value carries the host
and the raw line (the stderr report), the session terminates (modelled by
`Except.error`, from `sys.exit(1)`), and no record is produced. -/
theorem C3_short_line_fatal (host data : String)
    (h : (pySplit data).length < 12) :
    processInit host data = .error ⟨host, data⟩ ∧
      ∀ p : Process, processInit host data ≠ .ok p := by
  have he : processInit host data = .error ⟨host, data⟩ := by
    simp [processInit, h]
  refine ⟨he, ?_⟩
  intro p hp
  rw [he] at hp
  exact Except.noConfusion hp

theorem C3_short_line_fatal_witness :
    (pySplit "1234 root 20 0 als S 0.0 0.0").length < 12 ∧
      (processInit "hostA" "1234 root 20 0 als S 0.0 0.0" =
          .error ⟨"hostA", "1234 root 20 0 als S 0.0 0.0"⟩ ∧
        ∀ p : Process,
          processInit "hostA" "1234 root 20 0 als S 0.0 0.0" ≠ .ok p) :=
  ⟨by decide, C3_short_line_fatal "hostA" "1234 root 20 0 als S 0.0 0.0" (by decide)⟩

/-! ## Claim C4 -/

/-- C4 counterexample: the claim promises the exact reason string
`Unknown Error` when stderr is empty, but the code (line 71) spells the
literal without the first `n`: on a non-zero exit with empty stderr the
raised `SSH_Error` carries `Unkown Error`, which is not the claimed
string. -/
theorem C4_reason_counterexample :
    calltop "hostA" ⟨1, "", ""⟩ = .error ⟨"Unkown Error", "hostA"⟩ ∧
      ("Unkown Error" : String) ≠ "Unknown Error" := by
  constructor
  · with_unfolding_all rfl
  · decide

/-- C4 amended: for a host whose remote command exits non-zero, the fetch
yields a broken-host result whose reason is the stderr text stripped of
leading and trailing whitespace when stderr is non-empty, and the exact
string `Unkown Error` (as spelled at line 71) when stderr is empty. -/
theorem C4_reason_amended (host : String) (r : CmdResult)
    (h : r.returncode ≠ 0) :
    (r.err ≠ "" →
      getprocs host r = .ok (.broken (formatBroken host (pyStrip r.err)))) ∧
    (r.err = "" →
      getprocs host r = .ok (.broken (formatBroken host "Unkown Error"))) := by
  constructor
  · intro hne
    have hemp : r.err.isEmpty = false := by
      rcases hb : r.err.isEmpty with _ | _
      · rfl
      · exact absurd ((String.isEmpty_iff r.err).mp hb) hne
    have hcall : calltop host r = .error ⟨pyStrip r.err, host⟩ := by
      simp [calltop, h, mkSSHError, hemp]
    unfold getprocs
    rw [hcall]
  · intro he
    have hemp : r.err.isEmpty = true := (String.isEmpty_iff r.err).mpr he
    have hcall : calltop host r = .error ⟨pyStrip "Unkown Error", host⟩ := by
      simp [calltop, h, mkSSHError, hemp]
    unfold getprocs
    rw [hcall, show pyStrip "Unkown Error" = "Unkown Error" from by decide]

theorem C4_reason_witness :
    (("boom " : String) ≠ "" →
      getprocs "hostA" ⟨255, "", "boom "⟩ =
        .ok (.broken (formatBroken "hostA" (pyStrip "boom ")))) ∧
    (("boom " : String) = "" →
      getprocs "hostA" ⟨255, "", "boom "⟩ =
        .ok (.broken (formatBroken "hostA" "Unkown Error"))) :=
  C4_reason_amended "hostA" ⟨255, "", "boom "⟩ (by decide)

/-! ## Claim C6 -/

/-- C6: merging `{Success(hostA, [cpu=10]), Success(hostB, [cpu=90]),
Failure(hostC, timeout)}` yields the records `[hostB record, hostA record]`
(sorted descending by cpu) and the single failed-host entry carrying hostC
and the reason timeout (rendered by the code as the broken-host string built
from that host and reason at line 104). -/
theorem C6_merge_example :
    mergeCycle [.procs [recA], .procs [recB],
        .broken (formatBroken "hostC" "timeout")] =
      .ok ⟨[recB, recA], [formatBroken "hostC" "timeout"]⟩ := by
  with_unfolding_all rfl

/-! ## Claim C2 -/

/-- C2 counterexample: on a line whose trailing text holds two spaces
between its last two words, the parsed command field is the single-space
rejoin `a b`, while the original trailing text from field 12 onward is
`a  b`; the round trip is not character for character. -/
theorem C2_roundtrip_counterexample :
    (processInit "hostA" "1 root 20 0 0 0 0 S 0.0 0.0 0:00 a  b").map Process.cmd =
        .ok "a b" ∧
      specTrailingText "1 root 20 0 0 0 0 S 0.0 0.0 0:00 a  b" = "a  b" ∧
      ("a b" : String) ≠ "a  b" := by
  refine ⟨?_, by decide, by decide⟩
  with_unfolding_all rfl

/-- C2 amended: parsing a line with at least 12 fields and re-extracting the
command field reconstructs the original trailing text up to whitespace
normalisation — the two agree field by field, and the round trip is exact
character for character whenever the trailing text is already normalised
(single spaces between fields, no leading or trailing whitespace), which is
the case for the single-space join of its own fields. -/
theorem C2_roundtrip_amended (host data : String) (p : Process)
    (h : processInit host data = .ok p) :
    pySplit p.cmd = pySplit (specTrailingText data) ∧
      (specTrailingText data = pyJoin " " (pySplit (specTrailingText data)) →
        p.cmd = specTrailingText data) := by
  have hcmd : p.cmd = String.mk (pyJoinL [' '] ((pySplitL data.data).drop 11)) :=
    processInit_cmd h
  have hts : ∀ t ∈ (pySplitL data.data).drop 11,
      t ≠ [] ∧ ∀ c ∈ t, pyIsSpace c = false := by
    intro t ht
    exact pySplitL_fields_of_mem (List.drop_subset _ _ ht)
  have h1 : pySplit p.cmd = ((pySplitL data.data).drop 11).map String.mk := by
    rw [hcmd, pySplit_mk, pySplitL_joinL _ hts]
  have h2 : pySplit (specTrailingText data) =
      ((pySplitL data.data).drop 11).map String.mk :=
    pySplit_specTrailingText data
  refine ⟨h1.trans h2.symm, ?_⟩
  intro hnorm
  rw [hnorm, h2, pyJoin_map_mk, space_data, ← hcmd]

theorem C2_roundtrip_witness :
    pySplit (mkProcess "hostA" (pySplit "7 root 20 0 1000 100 10 S 0.0 0.0 0:00 bash -l")).cmd =
        pySplit (specTrailingText "7 root 20 0 1000 100 10 S 0.0 0.0 0:00 bash -l") ∧
      (specTrailingText "7 root 20 0 1000 100 10 S 0.0 0.0 0:00 bash -l" =
          pyJoin " "
            (pySplit (specTrailingText "7 root 20 0 1000 100 10 S 0.0 0.0 0:00 bash -l")) →
        (mkProcess "hostA" (pySplit "7 root 20 0 1000 100 10 S 0.0 0.0 0:00 bash -l")).cmd =
          specTrailingText "7 root 20 0 1000 100 10 S 0.0 0.0 0:00 bash -l") :=
  C2_roundtrip_amended "hostA" "7 root 20 0 1000 100 10 S 0.0 0.0 0:00 bash -l"
    (mkProcess "hostA" (pySplit "7 root 20 0 1000 100 10 S 0.0 0.0 0:00 bash -l"))
    (by with_unfolding_all rfl)

/-! ## Claim C10 -/

theorem chain_of_all_nonspace (t : List Char)
    (h : ∀ c ∈ t, pyIsSpace c = false) :
    t.Chain' (fun a b => pyIsSpace a = true → pyIsSpace b = false) := by
  refine List.Pairwise.chain' (List.pairwise_of_forall_mem_list ?_)
  intro a ha b _ hsa
  exact absurd hsa (by simp [h a ha])

/-- The single-space join of non-empty whitespace-free fields is a fully
whitespace-normalised string: non-empty, not starting or ending with
whitespace, never two adjacent whitespace characters, and every whitespace
character in it is a plain space. -/
theorem pyJoinL_normalized : ∀ ts : List (List Char),
    (∀ t ∈ ts, t ≠ [] ∧ ∀ c ∈ t, pyIsSpace c = false) → ts ≠ [] →
    pyJoinL [' '] ts ≠ [] ∧
      (∀ c, (pyJoinL [' '] ts).head? = some c → pyIsSpace c = false) ∧
      (∀ c, (pyJoinL [' '] ts).getLast? = some c → pyIsSpace c = false) ∧
      (pyJoinL [' '] ts).Chain' (fun a b => pyIsSpace a = true → pyIsSpace b = false) ∧
      (∀ c ∈ pyJoinL [' '] ts, pyIsSpace c = true → c = ' ') := by
  intro ts
  induction ts with
  | nil => intro _ hne; exact absurd rfl hne
  | cons t ts ih =>
    intro hts _
    have ht := hts t (List.mem_cons_self t ts)
    cases ts with
    | nil =>
      show t ≠ [] ∧ _
      refine ⟨ht.1, ?_, ?_, chain_of_all_nonspace t ht.2, ?_⟩
      · intro c hc
        exact ht.2 c (List.mem_of_mem_head? (Option.mem_def.mpr hc))
      · intro c hc
        exact ht.2 c (List.mem_of_getLast?_eq_some hc)
      · intro c hc hsc
        exact absurd hsc (by simp [ht.2 c hc])
    | cons t2 ts2 =>
      have hrest : ∀ u ∈ t2 :: ts2, u ≠ [] ∧ ∀ c ∈ u, pyIsSpace c = false := by
        intro u hu
        exact hts u (List.mem_cons_of_mem t hu)
      rcases ih hrest (List.cons_ne_nil t2 ts2) with ⟨ha, hb, hc, hd, he⟩
      have hj : pyJoinL [' '] (t :: t2 :: ts2) =
          t ++ (' ' :: pyJoinL [' '] (t2 :: ts2)) := by
        show t ++ [' '] ++ pyJoinL [' '] (t2 :: ts2) = _
        rw [List.append_assoc, List.singleton_append]
      rw [hj]
      refine ⟨?_, ?_, ?_, ?_, ?_⟩
      · exact List.append_ne_nil_of_right_ne_nil t (List.cons_ne_nil _ _)
      · intro c hcc
        obtain ⟨a, u, rfl⟩ : ∃ a u, t = a :: u := by
          cases t with
          | nil => exact absurd rfl ht.1
          | cons a u => exact ⟨a, u, rfl⟩
        rw [List.cons_append] at hcc
        simp only [List.head?_cons, Option.some.injEq] at hcc
        subst hcc
        exact ht.2 a (List.mem_cons_self a u)
      · intro c hcc
        rw [List.getLast?_append_of_ne_nil _ (List.cons_ne_nil _ _),
          show (' ' :: pyJoinL [' '] (t2 :: ts2)) = [' '] ++ pyJoinL [' '] (t2 :: ts2)
            from rfl,
          List.getLast?_append_of_ne_nil _ ha] at hcc
        exact hc c hcc
      · refine List.chain'_append.mpr
          ⟨chain_of_all_nonspace t ht.2, ?_, ?_⟩
        · refine List.chain'_cons'.mpr ⟨?_, hd⟩
          intro y hy _
          exact hb y (Option.mem_def.mp hy)
        · intro x hx y _ hsx
          exact absurd hsx
            (by simp [ht.2 x (List.mem_of_mem_getLast? hx)])
      · intro c hcc hsc
        rcases List.mem_append.mp hcc with h1 | h2
        · exact absurd hsc (by simp [ht.2 c h1])
        · rcases List.mem_cons.mp h2 with h3 | h4
          · exact h3
          · exact he c h4 hsc

/-- C10: every successfully constructed record has a fully
whitespace-normalised command field: non-empty, no leading or trailing
whitespace, no two adjacent whitespace characters (fields are separated by
exactly one character of whitespace), and every whitespace character in it
is a single plain space — whatever whitespace the source line held. -/
theorem C10_cmd_normalized (host data : String) (p : Process)
    (h : processInit host data = .ok p) :
    p.cmd ≠ "" ∧
      (∀ c, p.cmd.data.head? = some c → pyIsSpace c = false) ∧
      (∀ c, p.cmd.data.getLast? = some c → pyIsSpace c = false) ∧
      p.cmd.data.Chain' (fun a b => pyIsSpace a = true → pyIsSpace b = false) ∧
      (∀ c ∈ p.cmd.data, pyIsSpace c = true → c = ' ') := by
  have h12 : 12 ≤ (pySplit data).length := (processInit_ok h).2
  have hdata : p.cmd.data = pyJoinL [' '] ((pySplitL data.data).drop 11) := by
    rw [processInit_cmd h, data_of_mk]
  have hts : ∀ t ∈ (pySplitL data.data).drop 11,
      t ≠ [] ∧ ∀ c ∈ t, pyIsSpace c = false := by
    intro t ht
    exact pySplitL_fields_of_mem (List.drop_subset _ _ ht)
  have hne : (pySplitL data.data).drop 11 ≠ [] := by
    rw [pySplit, List.length_map] at h12
    have : 0 < ((pySplitL data.data).drop 11).length := by
      rw [List.length_drop]
      omega
    exact List.ne_nil_of_length_pos this
  rcases pyJoinL_normalized _ hts hne with ⟨ha, hb, hc, hd, he⟩
  refine ⟨?_, ?_, ?_, ?_, ?_⟩
  · intro hcmd
    rw [hcmd] at hdata
    exact ha hdata.symm
  · intro c hcc
    rw [hdata] at hcc
    exact hb c hcc
  · intro c hcc
    rw [hdata] at hcc
    exact hc c hcc
  · rw [hdata]
    exact hd
  · intro c hcc
    rw [hdata] at hcc
    exact he c hcc

theorem C10_cmd_normalized_witness :
    (mkProcess "hostA" (pySplit "7 root 20 0 1000 100 10 S 0.0 0.0 0:00 watch  -n  1  date")).cmd ≠ "" ∧
      (∀ c, (mkProcess "hostA" (pySplit "7 root 20 0 1000 100 10 S 0.0 0.0 0:00 watch  -n  1  date")).cmd.data.head? = some c → pyIsSpace c = false) ∧
      (∀ c, (mkProcess "hostA" (pySplit "7 root 20 0 1000 100 10 S 0.0 0.0 0:00 watch  -n  1  date")).cmd.data.getLast? = some c → pyIsSpace c = false) ∧
      (mkProcess "hostA" (pySplit "7 root 20 0 1000 100 10 S 0.0 0.0 0:00 watch  -n  1  date")).cmd.data.Chain'
        (fun a b => pyIsSpace a = true → pyIsSpace b = false) ∧
      (∀ c ∈ (mkProcess "hostA" (pySplit "7 root 20 0 1000 100 10 S 0.0 0.0 0:00 watch  -n  1  date")).cmd.data,
        pyIsSpace c = true → c = ' ') :=
  C10_cmd_normalized "hostA" "7 root 20 0 1000 100 10 S 0.0 0.0 0:00 watch  -n  1  date"
    (mkProcess "hostA" (pySplit "7 root 20 0 1000 100 10 S 0.0 0.0 0:00 watch  -n  1  date"))
    (by with_unfolding_all rfl)

/-! ## Claim C5 -/

/-- C5: line 213 sorts the merged record list by the cpu field parsed as a
float, in descending order, and the sort is stable — it permutes the input,
adjacent output records have non-increasing keys, and for every key value
the subsequence of records carrying that value is exactly the subsequence
they formed in the merged input, in the same order. -/
theorem C5_sort_desc_stable (procs sorted : List Process) (q : ℚ)
    (h : sortProcs procs = .ok sorted) :
    sorted.Perm procs ∧
      sorted.Pairwise (fun a b => cpuKey b ≤ cpuKey a) ∧
      sorted.filter (fun p => cpuKey p = q) =
        procs.filter (fun p => cpuKey p = q) := by
  have hs : sorted = sortDesc cpuKey procs := by
    by_cases hall : procs.all (fun p => (pyFloatQ p.cpu).isSome)
    · simp only [sortProcs, hall, if_true, Except.ok.injEq] at h
      exact h.symm
    · simp [sortProcs, hall] at h
  subst hs
  exact ⟨sortDesc_perm cpuKey procs, sortDesc_pairwise cpuKey procs,
    sortDesc_filter cpuKey q procs⟩

theorem C5_sort_desc_stable_witness :
    (sortDesc cpuKey
        [⟨"h1", "1", "u", "20", "0", "9", "9", "9", "S", "1.5", "0.1", "0:01", "a"⟩,
         ⟨"h2", "2", "u", "20", "0", "9", "9", "9", "S", "2.0", "0.1", "0:02", "b"⟩,
         ⟨"h3", "3", "u", "20", "0", "9", "9", "9", "S", "1.5", "0.1", "0:03", "c"⟩]).Perm
        [⟨"h1", "1", "u", "20", "0", "9", "9", "9", "S", "1.5", "0.1", "0:01", "a"⟩,
         ⟨"h2", "2", "u", "20", "0", "9", "9", "9", "S", "2.0", "0.1", "0:02", "b"⟩,
         ⟨"h3", "3", "u", "20", "0", "9", "9", "9", "S", "1.5", "0.1", "0:03", "c"⟩] ∧
      (sortDesc cpuKey
        [⟨"h1", "1", "u", "20", "0", "9", "9", "9", "S", "1.5", "0.1", "0:01", "a"⟩,
         ⟨"h2", "2", "u", "20", "0", "9", "9", "9", "S", "2.0", "0.1", "0:02", "b"⟩,
         ⟨"h3", "3", "u", "20", "0", "9", "9", "9", "S", "1.5", "0.1", "0:03", "c"⟩]).Pairwise
        (fun a b => cpuKey b ≤ cpuKey a) ∧
      (sortDesc cpuKey
        [⟨"h1", "1", "u", "20", "0", "9", "9", "9", "S", "1.5", "0.1", "0:01", "a"⟩,
         ⟨"h2", "2", "u", "20", "0", "9", "9", "9", "S", "2.0", "0.1", "0:02", "b"⟩,
         ⟨"h3", "3", "u", "20", "0", "9", "9", "9", "S", "1.5", "0.1", "0:03", "c"⟩]).filter
          (fun p => cpuKey p = (3 / 2 : ℚ)) =
        ([⟨"h1", "1", "u", "20", "0", "9", "9", "9", "S", "1.5", "0.1", "0:01", "a"⟩,
          ⟨"h2", "2", "u", "20", "0", "9", "9", "9", "S", "2.0", "0.1", "0:02", "b"⟩,
          ⟨"h3", "3", "u", "20", "0", "9", "9", "9", "S", "1.5", "0.1", "0:03", "c"⟩].filter
          (fun p => cpuKey p = (3 / 2 : ℚ))) :=
  C5_sort_desc_stable
    [⟨"h1", "1", "u", "20", "0", "9", "9", "9", "S", "1.5", "0.1", "0:01", "a"⟩,
     ⟨"h2", "2", "u", "20", "0", "9", "9", "9", "S", "2.0", "0.1", "0:02", "b"⟩,
     ⟨"h3", "3", "u", "20", "0", "9", "9", "9", "S", "1.5", "0.1", "0:03", "c"⟩]
    (sortDesc cpuKey
      [⟨"h1", "1", "u", "20", "0", "9", "9", "9", "S", "1.5", "0.1", "0:01", "a"⟩,
       ⟨"h2", "2", "u", "20", "0", "9", "9", "9", "S", "2.0", "0.1", "0:02", "b"⟩,
       ⟨"h3", "3", "u", "20", "0", "9", "9", "9", "S", "1.5", "0.1", "0:03", "c"⟩])
    (3 / 2) (by with_unfolding_all rfl)

/-! ## Claim C7 -/

/-- The line loop is a filter followed by a map: left-strip each line, keep
exactly the non-blank lines whose first character is numeric, and parse each
kept line into a record, in line order. -/
theorem parseLines_filter_map (host : String) : ∀ lines : List String,
    (∀ line ∈ lines, keepLine (pyLstrip line) = true →
      12 ≤ (pySplit (pyLstrip line)).length) →
    parseLines host lines =
      .ok (((lines.map pyLstrip).filter keepLine).map
        fun sl => mkProcess host (pySplit sl)) := by
  intro lines
  induction lines with
  | nil => intro _; rfl
  | cons line rest ih =>
    intro hok
    have hrest : ∀ l ∈ rest, keepLine (pyLstrip l) = true →
        12 ≤ (pySplit (pyLstrip l)).length := by
      intro l hl
      exact hok l (List.mem_cons_of_mem line hl)
    by_cases h1 : (pyLstrip line).isEmpty
    · have hk : keepLine (pyLstrip line) = false := by
        simp [keepLine, h1]
      simp only [parseLines, h1, if_true]
      rw [ih hrest]
      simp [List.filter_cons, hk]
    · by_cases h2 : pyIsnumeric ((pyLstrip line).data.headD ' ')
      · have hk : keepLine (pyLstrip line) = true := by
          simp only [List.headD_eq_head?_getD] at h2
          simp [keepLine, h1, h2]
        have h12 := hok line (List.mem_cons_self line rest) hk
        have hinit : processInit host (pyLstrip line) =
            .ok (mkProcess host (pySplit (pyLstrip line))) := by
          rw [processInit, if_neg (Nat.not_lt.mpr h12)]
        simp only [parseLines, h1, if_false, h2, Bool.not_true, if_true]
        rw [hinit, ih hrest]
        simp [List.filter_cons, hk]
        rfl
      · have hk : keepLine (pyLstrip line) = false := by
          simp only [List.headD_eq_head?_getD] at h2
          simp [keepLine, h2]
        simp only [parseLines, h1, if_false, h2, Bool.not_false, if_true]
        rw [ih hrest]
        simp [List.filter_cons, hk]

/-- C7: when the remote command exits zero, the fetch parses stdout line by
line — each line is trimmed of leading whitespace, blank lines and lines
whose first non-space character is not a digit are discarded, and every
remaining line yields exactly one record, in line order.  The hypothesis
`hok` says the kept lines respect the 12-field contract (otherwise the
session aborts fatally, claim C3). -/
theorem C7_zero_exit_parse (host : String) (r : CmdResult)
    (hrc : r.returncode = 0)
    (hok : ∀ line ∈ pySplitlines r.out, keepLine (pyLstrip line) = true →
      12 ≤ (pySplit (pyLstrip line)).length) :
    getprocs host r =
      .ok (.procs ((((pySplitlines r.out).map pyLstrip).filter keepLine).map
        fun sl => mkProcess host (pySplit sl))) := by
  have hcall : calltop host r = .ok r.out := by
    simp [calltop, hrc]
  unfold getprocs
  rw [hcall]
  show Except.map HostResult.procs (parseLines host (pySplitlines r.out)) = _
  rw [parseLines_filter_map host (pySplitlines r.out) hok]
  rfl

theorem C7_zero_exit_parse_witness :
    getprocs "hostA" ⟨0, "top - up 3 days\n\n  PID USER\n  7 root 20 0 9 9 9 S 0.0 0.0 0:00 init\n 10 bin 20 0 9 9 9 R 1.0 0.1 0:07 cc -c main.c\n", ""⟩ =
      .ok (.procs
        ((((pySplitlines "top - up 3 days\n\n  PID USER\n  7 root 20 0 9 9 9 S 0.0 0.0 0:00 init\n 10 bin 20 0 9 9 9 R 1.0 0.1 0:07 cc -c main.c\n").map
            pyLstrip).filter keepLine).map
          fun sl => mkProcess "hostA" (pySplit sl))) :=
  C7_zero_exit_parse "hostA"
    ⟨0, "top - up 3 days\n\n  PID USER\n  7 root 20 0 9 9 9 S 0.0 0.0 0:00 init\n 10 bin 20 0 9 9 9 R 1.0 0.1 0:07 cc -c main.c\n", ""⟩
    (by decide) (by decide)

/-! ## Claim C8 -/

theorem clipTo_length_le (n : Nat) (s : String) : (clipTo n s).length ≤ n := by
  show (s.data.take n).length ≤ n
  exact List.length_take_le n s.data

theorem pySliceTo_of_le {l : List α} {h : Nat} (hh : 3 ≤ h) :
    pySliceTo l ((h : Int) - 3) = l.take (h - 3) := by
  rw [pySliceTo, if_pos (by omega)]
  congr 1
  omega

/-- C8: on a viewport of height `h ≥ 3` holding more records than the
`h - 3` available data rows, rendering draws the header and separator, then
exactly `h - 3` data rows — the first `h - 3` records in order, each clipped
to `width - 1` characters — then the failed-hosts line, and nothing else:
the remaining records are simply not drawn, and every drawn text respects
the clip bound. -/
theorem C8_clip_rows (h w : Nat) (procs : List Process) (brokens : List String)
    (hh : 3 ≤ h) (hk : h - 3 < procs.length) :
    print_procs h w procs brokens =
        [(0, clipTo (w - 1) (headerText procs)),
         (1, clipTo (w - 1) (String.mk (List.replicate (w - 1) '-')))]
        ++ ((procs.take (h - 3)).enum.map fun ip =>
              (ip.1 + 2, clipTo (w - 1) (rowText procs ip.2)))
        ++ [(h - 1, clipTo (w - 1) ("Broken Hosts: " ++ pyJoin ", " brokens))] ∧
      (procs.take (h - 3)).length = h - 3 ∧
      ∀ row ∈ print_procs h w procs brokens, row.2.length ≤ w - 1 := by
  have heq : print_procs h w procs brokens =
      [(0, clipTo (w - 1) (headerText procs)),
       (1, clipTo (w - 1) (String.mk (List.replicate (w - 1) '-')))]
      ++ ((procs.take (h - 3)).enum.map fun ip =>
            (ip.1 + 2, clipTo (w - 1) (rowText procs ip.2)))
      ++ [(h - 1, clipTo (w - 1) ("Broken Hosts: " ++ pyJoin ", " brokens))] := by
    rw [print_procs, pySliceTo_of_le hh]
  refine ⟨heq, ?_, ?_⟩
  · rw [List.length_take]
    omega
  · intro row hrow
    rw [heq] at hrow
    simp only [List.mem_append, List.mem_cons, List.mem_map,
      List.mem_singleton, List.not_mem_nil, or_false] at hrow
    rcases hrow with ((h1 | h1) | ⟨ip, _, h1⟩) | h1
    · subst h1
      exact clipTo_length_le _ _
    · subst h1
      exact clipTo_length_le _ _
    · rw [← h1]
      exact clipTo_length_le _ _
    · subst h1
      exact clipTo_length_le _ _

theorem C8_clip_rows_witness :
    (print_procs 5 20 threeProcs [] =
        [(0, clipTo 19 (headerText threeProcs)),
         (1, clipTo 19 (String.mk (List.replicate 19 '-')))]
        ++ ((threeProcs.take 2).enum.map
              fun ip => (ip.1 + 2, clipTo 19 (rowText threeProcs ip.2)))
        ++ [(4, clipTo 19 ("Broken Hosts: " ++ pyJoin ", " []))]) ∧
      (threeProcs.take 2).length = 2 ∧
      ∀ row ∈ print_procs 5 20 threeProcs [], row.2.length ≤ 19 :=
  C8_clip_rows 5 20 threeProcs [] (by decide) (by decide)

/-! ## Claim C9 -/

theorem getLast?_append_singleton (l : List α) (a : α) :
    (l ++ [a]).getLast? = some a := by
  simp [List.getLast?_append]

/-- C9: the final drawn line of every rendering is the broken-hosts line at
the last viewport row: the comma-joined list of per-failure entries, each
built from a failed host and its reason (line 104), prefixed by
`Broken Hosts: ` and clipped like every other row.  It is drawn even with no
failed host, in which case the rendered text is the bare
`Broken Hosts: ` summary rather than the line being omitted. -/
theorem C9_failed_hosts_line (h w : Nat) (procs : List Process)
    (fails : List (String × String)) :
    (print_procs h w procs (fails.map fun f => formatBroken f.1 f.2)).getLast? =
        some (h - 1, clipTo (w - 1)
          ("Broken Hosts: " ++
            pyJoin ", " (fails.map fun f => formatBroken f.1 f.2))) ∧
      (print_procs h w procs []).getLast? =
        some (h - 1, clipTo (w - 1) "Broken Hosts: ") := by
  constructor
  · rw [print_procs, getLast?_append_singleton]
  · rw [print_procs, getLast?_append_singleton]
    rw [show ("Broken Hosts: " ++ pyJoin ", " ([] : List String)) = "Broken Hosts: "
      from by decide]
